import Mathlib

/-!
Shallow embedding of the `walkdir` module of the ferri repository
(`crates/core/src/walkdir.rs`): a streaming filesystem walker built from a
multithreaded producer (the ignore-crate walker feeding a bounded path
queue) and a single consumer task that invokes a caller-supplied callback,
maintains a shared prune set and an abort flag, and forwards emitted items
to a bounded output queue.

Paths are modelled as lists of components, matching Rust `Path` component
semantics: `starts_with` is component-wise list prefix and `strip_prefix`
removes a component-wise prefix.
-/

/-- Filesystem path, as its list of components (Rust `PathBuf`). -/
abbrev FsPath := List String

/-- Rust `Path::strip_prefix`: remove a component-wise prefix, `none`
(Rust `Err`) when the candidate is not a prefix. -/
def stripRoot : FsPath → FsPath → Option FsPath
  | [], p => some p
  | _ :: _, [] => none
  | r :: rs, c :: cs => if r = c then stripRoot rs cs else none

/-- The prune-set membership test used by both producer and consumer:
`pruned.iter().any(|p| path.starts_with(p))`, i.e. the path equals or is a
descendant of some member. -/
def pruneHit (pruned : List FsPath) (path : FsPath) : Bool :=
  pruned.any (fun p => p.isPrefixOf path)

/-- `WalkDecision` from walkdir.rs: what the callback asks the walk to do
next for this entry. -/
inductive WalkDecision where
  | Continue
  | SkipDescend
  | Abort
deriving DecidableEq, Repr

/-- `CbResult<T>` from walkdir.rs: a control decision plus an optional item
to emit on the output stream. -/
structure CbResult (T : Type) where
  decision : WalkDecision
  output : Option T
deriving DecidableEq, Repr

/-- `CbResult::cont()`. -/
def CbResult.cont {T : Type} : CbResult T := ⟨WalkDecision.Continue, none⟩

/-- `CbResult::skip()`. -/
def CbResult.skip {T : Type} : CbResult T := ⟨WalkDecision.SkipDescend, none⟩

/-- `CbResult::abort()`. -/
def CbResult.abort {T : Type} : CbResult T := ⟨WalkDecision.Abort, none⟩

/-- `CbResult::emit(item)`. -/
def CbResult.emit {T : Type} (item : T) : CbResult T := ⟨WalkDecision.Continue, some item⟩

/-- `WalkOptions` from walkdir.rs. `depth : usize` with `usize::MAX`
meaning unbounded (see `usizeMax`). -/
structure WalkOptions where
  depth : Nat
  include_hidden : Bool
  parallelize_recursion : Bool
  max_concurrency : Nat
deriving DecidableEq, Repr

/-- `usize::MAX` on a 64-bit target; `WalkOptions::default()` uses it for
`depth` to mean "no depth limit". -/
def usizeMax : Nat := 2 ^ 64 - 1

/-- `WalkOptions::default()`. -/
def WalkOptions.default : WalkOptions :=
  { depth := usizeMax
    include_hidden := true
    parallelize_recursion := true
    max_concurrency := 8 }

/-- Symlink-aware file metadata, as far as the walker consumes it: the
consumer only asks `is_dir` when resolving a `SkipDescend` decision. -/
structure FsMeta where
  is_dir : Bool
deriving DecidableEq, Repr

/-- `WalkEntry` from walkdir.rs: what the callback receives. -/
structure WalkEntry where
  abs_path : FsPath
  rel_path : FsPath
  metadata : Option FsMeta
deriving DecidableEq, Repr

/-- Relative path computation from the consumer loop:
`abs.strip_prefix(&root_c).unwrap_or(&abs)`. -/
def relOf (rootC abs : FsPath) : FsPath :=
  (stripRoot rootC abs).getD abs

/-- The entry the consumer builds for the callback: absolute path, root
stripped relative path, `metadata: None`. -/
def mkEntryFor (rootC abs : FsPath) : WalkEntry :=
  { abs_path := abs, rel_path := relOf rootC abs, metadata := none }

/-- Consumer-side walk state: the shared `AtomicBool` abort flag, the
shared pruned-prefix set (modelled as a list; membership queries via
`pruneHit` are insensitive to duplicates), and the items sent to the
output channel (`out_tx`, element type `Result<T>`). `trace` is a ghost
record of every callback invocation (the entry passed and the decision
returned) and `abortStores` a ghost count of stores to the abort flag. -/
structure ConsState (E T : Type) where
  abort : Bool
  pruned : List FsPath
  outItems : List (Except E T)
  trace : List (WalkEntry × WalkDecision)
  abortStores : Nat
deriving Repr

/-- Fresh per-walk state: flag false, empty prune set, nothing sent. -/
def initConsState {E T : Type} : ConsState E T :=
  { abort := false, pruned := [], outItems := [], trace := [], abortStores := 0 }

/-- The `match decision` block of the consumer loop: `Continue` is a no-op;
`SkipDescend` inserts the path into the prune set only if a fresh
`tokio::fs::symlink_metadata` lookup succeeds and reports a directory
(lookup failure or non-directory is silently ignored); `Abort` stores
`true` into the abort flag. -/
def applyDecision {E T : Type} (fsMeta : FsPath → Option FsMeta) (abs : FsPath)
    (d : WalkDecision) (s : ConsState E T) : ConsState E T :=
  match d with
  | WalkDecision.Continue => s
  | WalkDecision.SkipDescend =>
    match fsMeta abs with
    | some m => if m.is_dir then { s with pruned := abs :: s.pruned } else s
    | none => s
  | WalkDecision.Abort =>
    { s with abort := true, abortStores := s.abortStores + 1 }

/-- The `if let Some(item) = output` tail of the consumer loop: forward an
emitted item to the output channel as `Ok(item)`. -/
def emitOut {E T : Type} (s : ConsState E T) (o : Option T) : ConsState E T :=
  match o with
  | none => s
  | some item => { s with outItems := s.outItems ++ [Except.ok item] }

/-- The consumer task of `walk_dir_stream` (the `while let Some(abs) =
in_rx.recv()` loop), run over the queued paths in order: check the abort
flag and stop if set; drop the path if it hits the prune set; otherwise
build the entry, await the callback (callback-local state `cs` threads
through, matching `FnMut`), apply the decision, and — except when the
decision was `Abort`, whose arm `break`s before the emission code — forward
any emitted item. -/
def consumerRun {σ E T : Type} (rootC : FsPath) (fsMeta : FsPath → Option FsMeta)
    (cb : σ → WalkEntry → σ × CbResult T) :
    σ → ConsState E T → List FsPath → σ × ConsState E T
  | cs, s, [] => (cs, s)
  | cs, s, abs :: rest =>
    if s.abort then (cs, s)
    else if pruneHit s.pruned abs then consumerRun rootC fsMeta cb cs s rest
    else
      let entry := mkEntryFor rootC abs
      let r := cb cs entry
      let s1 := applyDecision fsMeta abs r.2.decision
        { s with trace := s.trace ++ [(entry, r.2.decision)] }
      if r.2.decision = WalkDecision.Abort then (r.1, s1)
      else consumerRun rootC fsMeta cb r.1 (emitOut s1 r.2.output) rest

/-- The producer closure passed to `walker.run`, sequentialized over the
raw walker results: quit when the abort flag (snapshot `abortAt i` at step
`i`) is observed; skip walker errors (`Err(_) => Continue`); skip paths
hitting the prune set as currently seen (`prunedAt i`, a racy snapshot);
skip the root itself; otherwise send the path into the bounded queue. -/
def producerRun (rootAbs : FsPath) (abortAt : Nat → Bool) (prunedAt : Nat → List FsPath) :
    Nat → List (Except Unit FsPath) → List FsPath
  | _, [] => []
  | i, r :: rest =>
    if abortAt i then []
    else
      match r with
      | Except.error _ => producerRun rootAbs abortAt prunedAt (i + 1) rest
      | Except.ok path =>
        if pruneHit (prunedAt i) path then producerRun rootAbs abortAt prunedAt (i + 1) rest
        else if path = rootAbs then producerRun rootAbs abortAt prunedAt (i + 1) rest
        else path :: producerRun rootAbs abortAt prunedAt (i + 1) rest

/-- Builder configuration of the external ignore-crate `WalkBuilder`, as
far as walkdir.rs drives it. Modelled from the ignore crate's documented
setter semantics; only the flags the repo sets (plus the standard-filter
group) are tracked. -/
structure BuilderFlags where
  hidden : Bool
  parents : Bool
  ignoreFiles : Bool
  gitIgnore : Bool
  gitGlobal : Bool
  gitExclude : Bool
  followLinks : Bool
  maxDepth : Option Nat
  threads : Nat
deriving DecidableEq, Repr

/-- `WalkBuilder::new`: all standard ignore filters enabled by default,
symlinks not followed, no depth limit. -/
def defaultBuilderFlags : BuilderFlags :=
  { hidden := true, parents := true, ignoreFiles := true, gitIgnore := true
    gitGlobal := true, gitExclude := true, followLinks := false
    maxDepth := none, threads := 0 }

/-- `WalkBuilder::hidden`. -/
def setHidden (b : Bool) (f : BuilderFlags) : BuilderFlags := { f with hidden := b }

/-- `WalkBuilder::parents`. -/
def setParents (b : Bool) (f : BuilderFlags) : BuilderFlags := { f with parents := b }

/-- `WalkBuilder::ignore` (the `.ignore` sidecar files). -/
def setIgnoreFiles (b : Bool) (f : BuilderFlags) : BuilderFlags := { f with ignoreFiles := b }

/-- `WalkBuilder::git_ignore`. -/
def setGitIgnore (b : Bool) (f : BuilderFlags) : BuilderFlags := { f with gitIgnore := b }

/-- `WalkBuilder::git_global`. -/
def setGitGlobal (b : Bool) (f : BuilderFlags) : BuilderFlags := { f with gitGlobal := b }

/-- `WalkBuilder::git_exclude`. -/
def setGitExclude (b : Bool) (f : BuilderFlags) : BuilderFlags := { f with gitExclude := b }

/-- `WalkBuilder::follow_links`. -/
def setFollowLinks (b : Bool) (f : BuilderFlags) : BuilderFlags := { f with followLinks := b }

/-- `WalkBuilder::max_depth`. -/
def setMaxDepth (d : Option Nat) (f : BuilderFlags) : BuilderFlags := { f with maxDepth := d }

/-- `WalkBuilder::threads`. -/
def setThreads (n : Nat) (f : BuilderFlags) : BuilderFlags := { f with threads := n }

/-- `WalkBuilder::standard_filters(b)`: per the ignore crate's docs this
toggles, in one call, `hidden`, `parents`, `ignore`, `git_ignore`,
`git_global` and `git_exclude` — overwriting any values those six were
given earlier in the builder chain. -/
def setStandardFilters (b : Bool) (f : BuilderFlags) : BuilderFlags :=
  setGitExclude b (setGitGlobal b (setGitIgnore b (setIgnoreFiles b (setParents b (setHidden b f)))))

/-- The exact builder-method chain of walkdir.rs lines 169-179:
`git_ignore(true).git_global(true).git_exclude(true).parents(true)
.follow_links(true).hidden(!opts.include_hidden).standard_filters(true)
.max_depth(max_depth_opt).threads(threads)`, applied to a fresh builder. -/
def configureBuilder (opts : WalkOptions) (maxDepthOpt : Option Nat) (threads : Nat) :
    BuilderFlags :=
  setThreads threads (setMaxDepth maxDepthOpt (setStandardFilters true
    (setHidden (!opts.include_hidden) (setFollowLinks true (setParents true
      (setGitExclude true (setGitGlobal true (setGitIgnore true defaultBuilderFlags))))))))

/-- The `opts.max_concurrency == 0` coercion at the top of
`walk_dir_stream`: a zero worker count is rewritten to 1 before any use. -/
def normalizeOpts (opts : WalkOptions) : WalkOptions :=
  if opts.max_concurrency = 0 then { opts with max_concurrency := 1 } else opts

/-- Root canonicalization: `root.canonicalize().unwrap_or_else(|_| root)`,
with the `canonicalize` syscall as an oracle. -/
def rootAbsOf (canon : FsPath → Option FsPath) (root : FsPath) : FsPath :=
  (canon root).getD root

/-- `max_depth_opt`: `usize::MAX` means no limit, anything else is passed
through to the walker. -/
def maxDepthOptOf (opts : WalkOptions) : Option Nat :=
  if opts.depth = usizeMax then none else some opts.depth

/-- `threads`: the worker count handed to the walker builder. -/
def threadsOf (opts : WalkOptions) : Nat :=
  if opts.parallelize_recursion then opts.max_concurrency else 1

/-- Everything `walk_dir_stream` computes from its arguments before
spawning the producer and consumer: canonicalized root, depth option,
thread count, the two channel capacities, and the walker builder flags. -/
structure WalkSetup where
  rootAbs : FsPath
  maxDepthOpt : Option Nat
  threads : Nat
  outCap : Nat
  inCap : Nat
  flags : BuilderFlags
deriving DecidableEq, Repr

/-- The setup phase of `walk_dir_stream` (lines 133-179). -/
def mkSetup (root : FsPath) (canon : FsPath → Option FsPath) (opts : WalkOptions) : WalkSetup :=
  let o := normalizeOpts opts
  { rootAbs := rootAbsOf canon root
    maxDepthOpt := maxDepthOptOf o
    threads := threadsOf o
    outCap := o.max_concurrency * 4
    inCap := o.max_concurrency * 16
    flags := configureBuilder o (maxDepthOptOf o) (threadsOf o) }

/-- A filesystem entry as the external walker sees it: its absolute path
plus whether it falls under the conventional hidden-name rule or under the
active ignore-file rules (attributes are precomputed per entry, inherited
filtering from ancestors included). -/
structure FsEntry where
  path : FsPath
  hiddenName : Bool
  ignoredByRules : Bool
deriving DecidableEq, Repr

/-- Whether the configured walker yields a given entry. Modelled from the
ignore crate's documented behavior and the repo's own option doc
(`depth: 0 = list only root`): the root is yielded at depth 0 and an entry
at depth k is yielded only when `max_depth` is unset or k is at most the
limit; the `hidden` filter drops hidden-name entries; the ignore filters
drop entries matched by ignore-file rules. -/
def walkerKeeps (fl : BuilderFlags) (rootAbs : FsPath) (e : FsEntry) : Bool :=
  rootAbs.isPrefixOf e.path &&
  (match fl.maxDepth with
   | none => true
   | some d => decide (e.path.length - rootAbs.length ≤ d)) &&
  (!fl.hidden || !e.hiddenName) &&
  (!(fl.ignoreFiles || fl.gitIgnore || fl.gitGlobal || fl.gitExclude) || !e.ignoredByRules)

/-- Raw result sequence the walker hands to the producer closure: per-entry
errors pass through (the producer swallows them), kept entries are reduced
to their paths. -/
def walkerOutput (fl : BuilderFlags) (rootAbs : FsPath) (l : List (Except Unit FsEntry)) :
    List (Except Unit FsPath) :=
  (l.filter (fun r => match r with
    | Except.error _ => true
    | Except.ok e => walkerKeeps fl rootAbs e)).map (fun r => r.map FsEntry.path)

/-- The whole `walk_dir_stream` pipeline for a given setup: the walker
enumeration is filtered by the builder flags, the producer forwards
surviving paths (under racy abort/prune snapshots), and the consumer runs
the callback over the queue from a fresh per-walk state. -/
def walkPipeline {σ E T : Type} (su : WalkSetup) (fsResults : List (Except Unit FsEntry))
    (abortAt : Nat → Bool) (prunedAt : Nat → List FsPath)
    (fsMeta : FsPath → Option FsMeta) (cb : σ → WalkEntry → σ × CbResult T) (cs0 : σ) :
    σ × ConsState E T :=
  consumerRun su.rootAbs fsMeta cb cs0 initConsState
    (producerRun su.rootAbs abortAt prunedAt 0 (walkerOutput su.flags su.rootAbs fsResults))

/-- `walk_dir_stream`: performs the setup and returns the stream. The
source returns `Ok(ReceiverStream::new(out_rx))` unconditionally — no
fallible operation occurs during setup — so the model returns `Except.ok`
of the pipeline result, whose `outItems` are the stream's items. -/
def walk_dir_stream {σ E T : Type} (root : FsPath) (canon : FsPath → Option FsPath)
    (opts : WalkOptions) (fsResults : List (Except Unit FsEntry))
    (abortAt : Nat → Bool) (prunedAt : Nat → List FsPath)
    (fsMeta : FsPath → Option FsMeta) (cb : σ → WalkEntry → σ × CbResult T) (cs0 : σ) :
    Except E (σ × ConsState E T) :=
  Except.ok (walkPipeline (mkSetup root canon opts) fsResults abortAt prunedAt fsMeta cb cs0)

/-- The drain loop of `walk_dir`:
`while let Some(_evt) = stream.next().await.transpose()? {}` — scan the
stream's items in order, propagate the first `Err`, return `Ok(())` when
the stream ends. -/
def drainResults {E T : Type} : List (Except E T) → Except E Unit
  | [] => Except.ok ()
  | Except.ok _ :: rest => drainResults rest
  | Except.error e :: _ => Except.error e

/-- `walk_dir`: wraps `walk_dir_stream` (propagating its setup result with
`?`) and drains the stream. The wrapper closure clones the callback for
every entry, so the effective callback is stateless: `cb` is a plain
function from entries to `CbResult<()>`. -/
def walk_dir {E : Type} (root : FsPath) (canon : FsPath → Option FsPath)
    (opts : WalkOptions) (fsResults : List (Except Unit FsEntry))
    (abortAt : Nat → Bool) (prunedAt : Nat → List FsPath)
    (fsMeta : FsPath → Option FsMeta) (cb : WalkEntry → CbResult Unit) :
    Except E Unit :=
  match walk_dir_stream root canon opts fsResults abortAt prunedAt fsMeta
      (fun (u : Unit) e => (u, cb e)) () with
  | Except.ok st => drainResults st.2.outItems
  | Except.error e => Except.error e

/-- Decision application never touches the callback trace. -/
theorem applyDecision_trace {E T : Type} (m : FsPath → Option FsMeta) (abs : FsPath)
    (d : WalkDecision) (s : ConsState E T) : (applyDecision m abs d s).trace = s.trace := by
  cases d <;> simp [applyDecision]
  cases m abs <;> simp
  split <;> rfl

/-- Decision application never touches the output items. -/
theorem applyDecision_outItems {E T : Type} (m : FsPath → Option FsMeta) (abs : FsPath)
    (d : WalkDecision) (s : ConsState E T) : (applyDecision m abs d s).outItems = s.outItems := by
  cases d <;> simp [applyDecision]
  cases m abs <;> simp
  split <;> rfl

/-- Decision application only ever grows the prune set. -/
theorem applyDecision_pruned_mono {E T : Type} {m : FsPath → Option FsMeta} {abs : FsPath}
    {d : WalkDecision} {s : ConsState E T} {p : FsPath} (hp : p ∈ s.pruned) :
    p ∈ (applyDecision m abs d s).pruned := by
  cases d <;> simp [applyDecision]
  · exact hp
  · cases m abs
    · simpa using hp
    · simp only []
      split
      · exact List.mem_cons_of_mem _ hp
      · exact hp
  · exact hp

/-- A non-`Abort` decision leaves the abort flag alone. -/
theorem applyDecision_abort_of_ne {E T : Type} {m : FsPath → Option FsMeta} {abs : FsPath}
    {d : WalkDecision} (s : ConsState E T) (hd : d ≠ WalkDecision.Abort) :
    (applyDecision m abs d s).abort = s.abort := by
  cases d
  · rfl
  · simp [applyDecision]
    cases m abs
    · rfl
    · simp only []
      split <;> rfl
  · exact absurd rfl hd

/-- A non-`Abort` decision does not store into the abort flag. -/
theorem applyDecision_abortStores_of_ne {E T : Type} {m : FsPath → Option FsMeta} {abs : FsPath}
    {d : WalkDecision} (s : ConsState E T) (hd : d ≠ WalkDecision.Abort) :
    (applyDecision m abs d s).abortStores = s.abortStores := by
  cases d
  · rfl
  · simp [applyDecision]
    cases m abs
    · rfl
    · simp only []
      split <;> rfl
  · exact absurd rfl hd

/-- Emission never touches trace, prune set, abort flag or store count. -/
theorem emitOut_ghost {E T : Type} (s : ConsState E T) (o : Option T) :
    (emitOut s o).trace = s.trace ∧ (emitOut s o).pruned = s.pruned ∧
    (emitOut s o).abort = s.abort ∧ (emitOut s o).abortStores = s.abortStores := by
  cases o <;> simp [emitOut]

/-- Every item emission appends `Ok` items only. -/
theorem emitOut_outItems_ok {E T : Type} (s : ConsState E T) (o : Option T) :
    ∀ x ∈ (emitOut s o).outItems, x ∈ s.outItems ∨ ∃ t0, x = Except.ok t0 := by
  cases o with
  | none => intro x hx; exact Or.inl hx
  | some item =>
    intro x hx
    simp [emitOut] at hx
    rcases hx with hx | hx
    · exact Or.inl hx
    · exact Or.inr ⟨item, hx⟩

/-- Once the consumer observes the abort flag, it stops dead: the queue is
discarded unread and neither the callback state nor the walk state moves. -/
theorem consumerRun_abort_frozen {σ E T : Type} (rootC : FsPath)
    (fsMeta : FsPath → Option FsMeta) (cb : σ → WalkEntry → σ × CbResult T)
    (cs : σ) (s : ConsState E T) (q : List FsPath) (h : s.abort = true) :
    consumerRun rootC fsMeta cb cs s q = (cs, s) := by
  cases q with
  | nil => rfl
  | cons a rest => simp [consumerRun, h]

/-- Processing a concatenated queue is processing the two halves in
sequence. -/
theorem consumerRun_append {σ E T : Type} (rootC : FsPath)
    (fsMeta : FsPath → Option FsMeta) (cb : σ → WalkEntry → σ × CbResult T)
    (cs : σ) (s : ConsState E T) (a b : List FsPath) :
    consumerRun rootC fsMeta cb cs s (a ++ b) =
      consumerRun rootC fsMeta cb (consumerRun rootC fsMeta cb cs s a).1
        (consumerRun rootC fsMeta cb cs s a).2 b := by
  induction a generalizing cs s with
  | nil => rfl
  | cons x rest ih =>
    by_cases hab : s.abort
    · simp [consumerRun, hab, consumerRun_abort_frozen rootC fsMeta cb cs s b hab]
    · by_cases hpr : pruneHit s.pruned x
      · simp [consumerRun, hab, hpr, ih]
      · simp only [List.cons_append, consumerRun, hab, hpr, if_false, if_true,
          Bool.false_eq_true, ite_false]
        by_cases habort :
            (cb cs (mkEntryFor rootC x)).2.decision = WalkDecision.Abort
        · simp only [habort, if_true, ite_true]
          exact (consumerRun_abort_frozen _ _ _ _ _ b rfl).symm
        · simp only [habort, if_false, ite_false]
          exact ih _ _


/-- A negative prune check means no member of the set is a component
prefix of the path. -/
theorem pruneHit_eq_false {pruned : List FsPath} {a : FsPath}
    (h : pruneHit pruned a = false) : ∀ p ∈ pruned, p.isPrefixOf a = false := by
  intro p hp
  simp only [pruneHit, List.any_eq_false] at h
  exact Bool.eq_false_iff.mpr (h p hp)

/-- The prune check succeeds exactly when the path equals or descends from
some member of the set (component-wise prefix). -/
theorem pruneHit_iff (pruned : List FsPath) (a : FsPath) :
    pruneHit pruned a = true ↔ ∃ p ∈ pruned, p <+: a := by
  simp [pruneHit, List.any_eq_true]

/-- Shape of a consumer run: the trace only grows, every new callback
invocation received a path drawn from the queue with the root-relative
entry built for it, and no new invocation concerns a path that was already
covered by the prune set when the run started. -/
theorem consumerRun_trace_shape {σ E T : Type} (rootC : FsPath)
    (fsMeta : FsPath → Option FsMeta) (cb : σ → WalkEntry → σ × CbResult T)
    (q : List FsPath) (cs : σ) (s : ConsState E T) :
    ∃ t, (consumerRun rootC fsMeta cb cs s q).2.trace = s.trace ++ t ∧
      ∀ pr ∈ t, pr.1.abs_path ∈ q ∧ pr.1 = mkEntryFor rootC pr.1.abs_path ∧
        ∀ P ∈ s.pruned, P.isPrefixOf pr.1.abs_path = false := by
  induction q generalizing cs s with
  | nil => exact ⟨[], by simp [consumerRun], fun pr h => absurd h (List.not_mem_nil _)⟩
  | cons x rest ih =>
    simp only [consumerRun]
    split
    · exact ⟨[], by simp, fun pr h => absurd h (List.not_mem_nil _)⟩
    · split
      · rcases ih cs s with ⟨t, ht, hprops⟩
        exact ⟨t, ht, fun pr h2 => ⟨List.mem_cons_of_mem _ (hprops pr h2).1,
          (hprops pr h2).2.1, (hprops pr h2).2.2⟩⟩
      · rename_i hpr
        have hpr2 : pruneHit s.pruned x = false := Bool.eq_false_iff.mpr hpr
        split
        · refine ⟨[(mkEntryFor rootC x, (cb cs (mkEntryFor rootC x)).2.decision)], ?_, ?_⟩
          · rw [applyDecision_trace]
          · intro pr h2
            rcases List.mem_singleton.mp h2 with rfl
            exact ⟨List.mem_cons_self _ _, rfl, pruneHit_eq_false hpr2⟩
        · rcases ih (cb cs (mkEntryFor rootC x)).1
            (emitOut (applyDecision fsMeta x (cb cs (mkEntryFor rootC x)).2.decision
              { s with trace := s.trace ++
                [(mkEntryFor rootC x, (cb cs (mkEntryFor rootC x)).2.decision)] })
              (cb cs (mkEntryFor rootC x)).2.output) with ⟨t, ht, hprops⟩
          refine ⟨(mkEntryFor rootC x, (cb cs (mkEntryFor rootC x)).2.decision) :: t, ?_, ?_⟩
          · rw [ht, (emitOut_ghost _ _).1, applyDecision_trace]
            simp
          · intro pr h2
            rcases List.mem_cons.mp h2 with rfl | hmem
            · exact ⟨List.mem_cons_self _ _, rfl, pruneHit_eq_false hpr2⟩
            · rcases hprops pr hmem with ⟨h1, h2, h3⟩
              refine ⟨List.mem_cons_of_mem _ h1, h2, ?_⟩
              intro P hP
              refine h3 P ?_
              rw [(emitOut_ghost _ _).2.1]
              exact applyDecision_pruned_mono hP

/-- The prune set only grows over a consumer run: paths are inserted,
never removed. -/
theorem consumerRun_pruned_mono {σ E T : Type} (rootC : FsPath)
    (fsMeta : FsPath → Option FsMeta) (cb : σ → WalkEntry → σ × CbResult T)
    (q : List FsPath) (cs : σ) (s : ConsState E T) {p : FsPath} (hp : p ∈ s.pruned) :
    p ∈ (consumerRun rootC fsMeta cb cs s q).2.pruned := by
  induction q generalizing cs s with
  | nil => exact hp
  | cons x rest ih =>
    simp only [consumerRun]
    split
    · exact hp
    · split
      · exact ih cs s hp
      · split
        · exact applyDecision_pruned_mono hp
        · refine ih _ _ ?_
          rw [(emitOut_ghost _ _).2.1]
          exact applyDecision_pruned_mono hp

/-- Every item a consumer run sends to the output channel that was not
already there is an `Ok` item: the consumer never constructs an error. -/
theorem consumerRun_outItems_ok {σ E T : Type} (rootC : FsPath)
    (fsMeta : FsPath → Option FsMeta) (cb : σ → WalkEntry → σ × CbResult T)
    (q : List FsPath) (cs : σ) (s : ConsState E T) :
    ∀ x ∈ (consumerRun rootC fsMeta cb cs s q).2.outItems,
      x ∈ s.outItems ∨ ∃ t0, x = Except.ok t0 := by
  induction q generalizing cs s with
  | nil => exact fun x hx => Or.inl hx
  | cons x rest ih =>
    simp only [consumerRun]
    split
    · exact fun y hy => Or.inl hy
    · split
      · exact ih cs s
      · split
        · intro y hy
          rw [applyDecision_outItems] at hy
          exact Or.inl hy
        · intro y hy
          rcases ih _ _ y hy with hmem | hok
          · rcases emitOut_outItems_ok _ _ y hmem with hmem2 | hok
            · rw [applyDecision_outItems] at hmem2
              exact Or.inl hmem2
            · exact Or.inr hok
          · exact Or.inr hok

/-- Store accounting for the abort flag: starting from a run with the flag
clear, the final store count is the initial one plus exactly one when the
run ends aborted and plus zero otherwise — the flag is stored at most once
and only on the `Abort` arm. -/
theorem consumerRun_abort_count {σ E T : Type} (rootC : FsPath)
    (fsMeta : FsPath → Option FsMeta) (cb : σ → WalkEntry → σ × CbResult T)
    (q : List FsPath) (cs : σ) (s : ConsState E T) (h : s.abort = false) :
    (consumerRun rootC fsMeta cb cs s q).2.abortStores =
      s.abortStores + (if (consumerRun rootC fsMeta cb cs s q).2.abort then 1 else 0) := by
  induction q generalizing cs s with
  | nil => simp [consumerRun, h]
  | cons x rest ih =>
    simp only [consumerRun]
    split
    · rename_i hab
      exact absurd h (by simp [hab])
    · split
      · exact ih cs s h
      · split
        · rename_i hd
          rw [hd]
          simp [applyDecision]
        · rename_i hd
          have hne : (cb cs (mkEntryFor rootC x)).2.decision ≠ WalkDecision.Abort := hd
          have hab2 : (emitOut (applyDecision fsMeta x
              (cb cs (mkEntryFor rootC x)).2.decision
              { s with trace := s.trace ++
                [(mkEntryFor rootC x, (cb cs (mkEntryFor rootC x)).2.decision)] })
              (cb cs (mkEntryFor rootC x)).2.output).abort = false := by
            rw [(emitOut_ghost _ _).2.2.1, applyDecision_abort_of_ne _ hne]
            exact h
          rw [ih _ _ hab2, (emitOut_ghost _ _).2.2.2,
            applyDecision_abortStores_of_ne _ hne]

/-- Whatever the producer forwards into the path queue came from the
walker's result stream as a successful entry and is never the
canonicalized root itself. -/
theorem producerRun_mem (rootAbs : FsPath) (abortAt : Nat → Bool)
    (prunedAt : Nat → List FsPath) (i : Nat) (l : List (Except Unit FsPath)) :
    ∀ p ∈ producerRun rootAbs abortAt prunedAt i l, Except.ok p ∈ l ∧ p ≠ rootAbs := by
  induction l generalizing i with
  | nil => intro p hp; exact absurd hp (List.not_mem_nil _)
  | cons r rest ih =>
    intro p hp
    cases r with
    | error u =>
      simp only [producerRun] at hp
      by_cases habort : abortAt i
      · rw [if_pos habort] at hp
        exact absurd hp (List.not_mem_nil _)
      · rw [if_neg habort] at hp
        rcases ih (i + 1) p hp with ⟨h1, h2⟩
        exact ⟨List.mem_cons_of_mem _ h1, h2⟩
    | ok path =>
      simp only [producerRun] at hp
      by_cases habort : abortAt i
      · rw [if_pos habort] at hp
        exact absurd hp (List.not_mem_nil _)
      · rw [if_neg habort] at hp
        by_cases hprune : pruneHit (prunedAt i) path
        · rw [if_pos hprune] at hp
          rcases ih (i + 1) p hp with ⟨h1, h2⟩
          exact ⟨List.mem_cons_of_mem _ h1, h2⟩
        · rw [if_neg hprune] at hp
          by_cases hroot : path = rootAbs
          · rw [if_pos hroot] at hp
            rcases ih (i + 1) p hp with ⟨h1, h2⟩
            exact ⟨List.mem_cons_of_mem _ h1, h2⟩
          · rw [if_neg hroot] at hp
            rcases List.mem_cons.mp hp with rfl | hmem
            · exact ⟨List.mem_cons_self _ _, hroot⟩
            · rcases ih (i + 1) p hmem with ⟨h1, h2⟩
              exact ⟨List.mem_cons_of_mem _ h1, h2⟩

/-- Every successful path in the filtered walker stream comes from an
enumerated entry that passed the configured filters. -/
theorem walkerOutput_mem {fl : BuilderFlags} {rootAbs : FsPath}
    {l : List (Except Unit FsEntry)} {p : FsPath}
    (hp : Except.ok p ∈ walkerOutput fl rootAbs l) :
    ∃ e : FsEntry, Except.ok e ∈ l ∧ walkerKeeps fl rootAbs e = true ∧ e.path = p := by
  simp only [walkerOutput, List.mem_map] at hp
  rcases hp with ⟨r, hr, hmap⟩
  rcases List.mem_filter.mp hr with ⟨hrl, hkeep⟩
  match r with
  | Except.error u => exact absurd hmap (by simp [Except.map])
  | Except.ok e =>
    refine ⟨e, hrl, by simpa using hkeep, ?_⟩
    simpa [Except.map] using hmap

/-- Unpacking a positive walker filter decision: the entry sits under the
root, respects the depth limit when one is set, is not hidden when the
hidden filter is on, and is not ignore-matched when ignore filtering is
active. -/
theorem walkerKeeps_unpack {fl : BuilderFlags} {rootAbs : FsPath} {e : FsEntry}
    (h : walkerKeeps fl rootAbs e = true) :
    rootAbs.isPrefixOf e.path = true ∧
    (∀ d, fl.maxDepth = some d → e.path.length - rootAbs.length ≤ d) ∧
    (fl.hidden = true → e.hiddenName = false) ∧
    ((fl.ignoreFiles || fl.gitIgnore || fl.gitGlobal || fl.gitExclude) = true →
      e.ignoredByRules = false) := by
  simp only [walkerKeeps, Bool.and_eq_true] at h
  rcases h with ⟨⟨⟨h1, h2⟩, h3⟩, h4⟩
  refine ⟨h1, ?_, ?_, ?_⟩
  · intro d hd
    rw [hd] at h2
    simpa using h2
  · intro hh
    rw [hh] at h3
    simpa using h3
  · intro hi
    rw [hi] at h4
    simpa using h4

/-- Stripping a genuine prefix returns the remainder. -/
theorem stripRoot_append (r t : FsPath) : stripRoot r (r ++ t) = some t := by
  induction r with
  | nil => rfl
  | cons c rs ih => simp [stripRoot, ih]

/-- A successful strip is sound: the input was the prefix plus the
remainder. -/
theorem stripRoot_sound : ∀ (r a t : FsPath), stripRoot r a = some t → a = r ++ t
  | [], a, t, h => by simpa [stripRoot] using h
  | c :: rs, [], t, h => by simp [stripRoot] at h
  | c :: rs, x :: xs, t, h => by
    simp only [stripRoot] at h
    by_cases hc : c = x
    · rw [if_pos hc] at h
      have := stripRoot_sound rs xs t h
      simp [hc, this]
    · rw [if_neg hc] at h
      exact absurd h (by simp)

/-- Stripping fails exactly on non-prefixes. -/
theorem stripRoot_none {r a : FsPath} (h : r.isPrefixOf a = false) : stripRoot r a = none := by
  cases hs : stripRoot r a with
  | none => rfl
  | some t =>
    have ha := stripRoot_sound r a t hs
    have : r.isPrefixOf a = true := by
      rw [ List.isPrefixOf_iff_prefix, ha]
      exact List.prefix_append r t
    rw [this] at h
    cases h

/-- `Ok`-ness test on a stream item. -/
def isOkItem {E T : Type} : Except E T → Bool
  | Except.ok _ => true
  | Except.error _ => false

/-- Draining a stream of `Ok` items succeeds. -/
theorem drainResults_ok {E T : Type} (l : List (Except E T))
    (h : ∀ x ∈ l, ∃ t0, x = Except.ok t0) : drainResults l = Except.ok () := by
  induction l with
  | nil => rfl
  | cons x rest ih =>
    rcases h x (List.mem_cons_self _ _) with ⟨t0, rfl⟩
    exact ih fun y hy => h y (List.mem_cons_of_mem _ hy)

/-- Every item a full pipeline run places on the output stream is `Ok`. -/
theorem walkPipeline_outItems_ok {σ E T : Type} (su : WalkSetup)
    (fsResults : List (Except Unit FsEntry)) (abortAt : Nat → Bool)
    (prunedAt : Nat → List FsPath) (fsMeta : FsPath → Option FsMeta)
    (cb : σ → WalkEntry → σ × CbResult T) (cs0 : σ) :
    ∀ x ∈ (@walkPipeline σ E T su fsResults abortAt prunedAt fsMeta cb cs0).2.outItems,
      ∃ t0, x = Except.ok t0 := by
  intro x hx
  rcases consumerRun_outItems_ok su.rootAbs fsMeta cb _ cs0 initConsState x hx with hmem | hok
  · exact absurd hmem (List.not_mem_nil _)
  · exact hok

/-- Every callback invocation of a full pipeline run concerns a path the
producer forwarded: a walker-kept entry distinct from the root, packaged
as the root-relative entry. -/
theorem walkPipeline_trace_mem {σ E T : Type} (su : WalkSetup)
    (fsResults : List (Except Unit FsEntry)) (abortAt : Nat → Bool)
    (prunedAt : Nat → List FsPath) (fsMeta : FsPath → Option FsMeta)
    (cb : σ → WalkEntry → σ × CbResult T) (cs0 : σ) :
    ∀ pr ∈ (@walkPipeline σ E T su fsResults abortAt prunedAt fsMeta cb cs0).2.trace,
      pr.1 = mkEntryFor su.rootAbs pr.1.abs_path ∧ pr.1.abs_path ≠ su.rootAbs ∧
      ∃ e : FsEntry, Except.ok e ∈ fsResults ∧ walkerKeeps su.flags su.rootAbs e = true ∧
        e.path = pr.1.abs_path := by
  intro pr hpr
  rcases consumerRun_trace_shape su.rootAbs fsMeta cb
      (producerRun su.rootAbs abortAt prunedAt 0 (walkerOutput su.flags su.rootAbs fsResults))
      cs0 initConsState with ⟨t, ht, hprops⟩
  have hpr2 : pr ∈ t := by
    have : (@walkPipeline σ E T su fsResults abortAt prunedAt fsMeta cb cs0).2.trace = t := by
      simpa [initConsState] using ht
    rw [this] at hpr
    exact hpr
  rcases hprops pr hpr2 with ⟨hq, hentry, _⟩
  rcases producerRun_mem su.rootAbs abortAt prunedAt 0 _ _ hq with ⟨hwo, hne⟩
  rcases walkerOutput_mem hwo with ⟨e, he, hkeep, hpath⟩
  exact ⟨hentry, hne, e, he, hkeep, hpath⟩

/-- The `max_depth` the builder ends up with is the source's translation
of `opts.depth` (`usize::MAX` means no limit). -/
theorem mkSetup_flags_maxDepth (root : FsPath) (canon : FsPath → Option FsPath)
    (opts : WalkOptions) :
    (mkSetup root canon opts).flags.maxDepth =
      (if opts.depth = usizeMax then none else some opts.depth) := by
  simp only [mkSetup, configureBuilder, setThreads, setMaxDepth, setStandardFilters,
    setGitExclude, setGitGlobal, setGitIgnore, setIgnoreFiles, setParents, setHidden,
    setFollowLinks, maxDepthOptOf, normalizeOpts]
  split <;> rfl

/-- The builder always ends with hidden filtering enabled:
`standard_filters(true)` is applied after `hidden(!include_hidden)` and
overwrites it. -/
theorem mkSetup_flags_hidden (root : FsPath) (canon : FsPath → Option FsPath)
    (opts : WalkOptions) : (mkSetup root canon opts).flags.hidden = true := by
  simp only [mkSetup, configureBuilder, setThreads, setMaxDepth, setStandardFilters,
    setGitExclude, setGitGlobal, setGitIgnore, setIgnoreFiles, setParents, setHidden,
    setFollowLinks]

/-- Claim C10: `walk_dir_stream` always returns `Ok` — setup has no
failure path — every item it places on the output stream is `Ok(item)` (no
`Err` is ever sent into the output queue), and consequently `walk_dir`
returns `Ok(())` whenever the walk runs to completion. -/
theorem stream_and_drain_always_ok {σ E T : Type} (root : FsPath)
    (canon : FsPath → Option FsPath) (opts : WalkOptions)
    (fsResults : List (Except Unit FsEntry)) (abortAt : Nat → Bool)
    (prunedAt : Nat → List FsPath) (fsMeta : FsPath → Option FsMeta)
    (cb : σ → WalkEntry → σ × CbResult T) (cs0 : σ) (cbU : WalkEntry → CbResult Unit) :
    @walk_dir_stream σ E T root canon opts fsResults abortAt prunedAt fsMeta cb cs0 =
      Except.ok (@walkPipeline σ E T (mkSetup root canon opts) fsResults abortAt prunedAt
        fsMeta cb cs0) ∧
    (@walkPipeline σ E T (mkSetup root canon opts) fsResults abortAt prunedAt
      fsMeta cb cs0).2.outItems.all isOkItem = true ∧
    @walk_dir E root canon opts fsResults abortAt prunedAt fsMeta cbU = Except.ok () := by
  refine ⟨rfl, ?_, ?_⟩
  · rw [List.all_eq_true]
    intro x hx
    rcases walkPipeline_outItems_ok _ _ _ _ _ _ _ x hx with ⟨t0, rfl⟩
    rfl
  · simp only [walk_dir, walk_dir_stream]
    exact drainResults_ok _ (walkPipeline_outItems_ok _ _ _ _ _ _ _)

/-- Claim C7: a walk with `max_concurrency = 0` behaves identically to the
same walk with `max_concurrency = 1`: the setup coerces 0 to 1 before any
use, so the derived setup, the streamed pipeline, and the drain agree. -/
theorem max_concurrency_zero_as_one {σ E T : Type} (root : FsPath)
    (canon : FsPath → Option FsPath) (opts : WalkOptions)
    (fsResults : List (Except Unit FsEntry)) (abortAt : Nat → Bool)
    (prunedAt : Nat → List FsPath) (fsMeta : FsPath → Option FsMeta)
    (cb : σ → WalkEntry → σ × CbResult T) (cs0 : σ) (cbU : WalkEntry → CbResult Unit) :
    mkSetup root canon { opts with max_concurrency := 0 } =
      mkSetup root canon { opts with max_concurrency := 1 } ∧
    @walkPipeline σ E T (mkSetup root canon { opts with max_concurrency := 0 })
        fsResults abortAt prunedAt fsMeta cb cs0 =
      @walkPipeline σ E T (mkSetup root canon { opts with max_concurrency := 1 })
        fsResults abortAt prunedAt fsMeta cb cs0 ∧
    @walk_dir E root canon { opts with max_concurrency := 0 } fsResults abortAt prunedAt
        fsMeta cbU =
      @walk_dir E root canon { opts with max_concurrency := 1 } fsResults abortAt prunedAt
        fsMeta cbU := by
  exact ⟨rfl, rfl, rfl⟩

/-- Claim C5: for every walk over every root and options, the
canonicalized root path itself is never passed to the callback. -/
theorem root_never_delivered {σ E T : Type} (root : FsPath)
    (canon : FsPath → Option FsPath) (opts : WalkOptions)
    (fsResults : List (Except Unit FsEntry)) (abortAt : Nat → Bool)
    (prunedAt : Nat → List FsPath) (fsMeta : FsPath → Option FsMeta)
    (cb : σ → WalkEntry → σ × CbResult T) (cs0 : σ) :
    (@walkPipeline σ E T (mkSetup root canon opts) fsResults abortAt prunedAt
      fsMeta cb cs0).2.trace.all
        (fun pr => pr.1.abs_path != (mkSetup root canon opts).rootAbs) = true := by
  rw [List.all_eq_true]
  intro pr hpr
  rcases walkPipeline_trace_mem _ _ _ _ _ _ _ pr hpr with ⟨_, hne, _⟩
  exact bne_iff_ne.mpr hne

/-- Claim C3: once a path P is in the prune set, no subsequently processed
entry equal to P or descending from it reaches the callback; the prune set
only grows during a walk; and membership is tested as
equal-to-or-descendant-of any member (component-wise prefix). -/
theorem prune_set_blocks_descendants {σ E T : Type} (rootC : FsPath)
    (fsMeta : FsPath → Option FsMeta) (cb : σ → WalkEntry → σ × CbResult T)
    (q : List FsPath) (cs : σ) (s : ConsState E T) (P : FsPath) (hP : P ∈ s.pruned) :
    (∃ t, (consumerRun rootC fsMeta cb cs s q).2.trace = s.trace ++ t ∧
      ∀ pr ∈ t, P.isPrefixOf pr.1.abs_path = false) ∧
    (∀ p ∈ s.pruned, p ∈ (consumerRun rootC fsMeta cb cs s q).2.pruned) ∧
    (∀ a : FsPath, pruneHit s.pruned a = true ↔ ∃ p ∈ s.pruned, p <+: a) := by
  refine ⟨?_, fun p hp => consumerRun_pruned_mono rootC fsMeta cb q cs s hp,
    fun a => pruneHit_iff _ _⟩
  rcases consumerRun_trace_shape rootC fsMeta cb q cs s with ⟨t, ht, hprops⟩
  exact ⟨t, ht, fun pr hpr => (hprops pr hpr).2.2 P hP⟩

/-- Witness for C3 at a concrete run: with r/b pruned up front, the pruned
path survives a run that offers r/b/c and r/a. -/
theorem prune_set_blocks_descendants_witness :
    (["r", "b"] : FsPath) ∈ (consumerRun ["r"] (fun _ => some ⟨true⟩)
      (fun (u : Unit) (_ : WalkEntry) => (u, @CbResult.cont Nat)) ()
      { @initConsState Unit Nat with pruned := [["r", "b"]] }
      [["r", "b", "c"], ["r", "a"]]).2.pruned :=
  (prune_set_blocks_descendants ["r"] (fun _ => some ⟨true⟩)
    (fun (u : Unit) (_ : WalkEntry) => (u, @CbResult.cont Nat))
    [["r", "b", "c"], ["r", "a"]] ()
    { @initConsState Unit Nat with pruned := [["r", "b"]] } ["r", "b"]
    (by decide)).2.1 ["r", "b"] (by decide)

/-- Claim C4: after an entry whose decision is `Abort`, the flag goes from
false to true with exactly one store and never resets; the rest of the
queue is discarded unread; and once the consumer has observed the flag
true, no further callback invocation begins (the state is frozen). -/
theorem abort_boundary {σ E T : Type} (rootC : FsPath)
    (fsMeta : FsPath → Option FsMeta) (cb : σ → WalkEntry → σ × CbResult T)
    (cs cs2 : σ) (s : ConsState E T) (q1 q2 q3 : List FsPath)
    (h0 : s.abort = false) (h1 : s.abortStores = 0)
    (h2 : (consumerRun rootC fsMeta cb cs s q1).2.abort = true) :
    consumerRun rootC fsMeta cb cs s (q1 ++ q2) = consumerRun rootC fsMeta cb cs s q1 ∧
    (consumerRun rootC fsMeta cb cs s q1).2.abortStores = 1 ∧
    consumerRun rootC fsMeta cb cs2 (consumerRun rootC fsMeta cb cs s q1).2 q3 =
      (cs2, (consumerRun rootC fsMeta cb cs s q1).2) := by
  refine ⟨?_, ?_, consumerRun_abort_frozen _ _ _ _ _ _ h2⟩
  · rw [consumerRun_append, consumerRun_abort_frozen _ _ _ _ _ q2 h2]
  · rw [consumerRun_abort_count rootC fsMeta cb q1 cs s h0, h1, h2]
    rfl

/-- Witness for C4 at a concrete run: aborting on r/a stores the flag
exactly once. -/
theorem abort_boundary_witness :
    (consumerRun ["r"] (fun _ => some ⟨true⟩)
      (fun (u : Unit) (_ : WalkEntry) => (u, @CbResult.abort Nat)) ()
      (@initConsState Unit Nat) [["r", "a"]]).2.abortStores = 1 :=
  (abort_boundary ["r"] (fun _ => some ⟨true⟩)
    (fun (u : Unit) (_ : WalkEntry) => (u, @CbResult.abort Nat)) () ()
    (@initConsState Unit Nat) [["r", "a"]] [["r", "b"]] [["r", "c"]]
    rfl rfl (by decide)).2.1

/-- Claim C6: a path enters the prune set only on a `SkipDescend` decision
whose fresh symlink-aware metadata lookup confirms a directory; when the
lookup fails, `SkipDescend` degrades to exactly the no-op a `Continue`
decision performs — no insertion, no error, processing continues. -/
theorem prune_insert_condition {E T : Type} (fsMeta : FsPath → Option FsMeta)
    (abs : FsPath) (d : WalkDecision) (s : ConsState E T) :
    (fsMeta abs = none →
      applyDecision fsMeta abs WalkDecision.SkipDescend s =
        applyDecision fsMeta abs WalkDecision.Continue s ∧
      applyDecision fsMeta abs WalkDecision.SkipDescend s = s) ∧
    ((applyDecision fsMeta abs d s).pruned ≠ s.pruned →
      d = WalkDecision.SkipDescend ∧ ∃ m, fsMeta abs = some m ∧ m.is_dir = true ∧
        (applyDecision fsMeta abs d s).pruned = abs :: s.pruned) := by
  constructor
  · intro hf
    constructor <;> simp [applyDecision, hf]
  · intro hne
    cases d with
    | Continue => exact absurd rfl hne
    | Abort => exact absurd rfl hne
    | SkipDescend =>
      refine ⟨rfl, ?_⟩
      rcases hm : fsMeta abs with _ | m
      · have hz : applyDecision fsMeta abs WalkDecision.SkipDescend s = s := by
          simp [applyDecision, hm]
        rw [hz] at hne
        exact absurd rfl hne
      · by_cases hd : m.is_dir
        · exact ⟨m, by simp [hm], hd, by simp [applyDecision, hm, hd]⟩
        · have hz : applyDecision fsMeta abs WalkDecision.SkipDescend s = s := by
            simp [applyDecision, hm, hd]
          rw [hz] at hne
          exact absurd rfl hne

/-- Witness for C6 at a concrete state: with the metadata lookup failing,
`SkipDescend` leaves the state untouched. -/
theorem prune_insert_condition_witness :
    applyDecision (fun _ => none) ["r", "b"] WalkDecision.SkipDescend
      (@initConsState Unit Nat) = @initConsState Unit Nat :=
  ((prune_insert_condition (fun _ => none) ["r", "b"] WalkDecision.SkipDescend
    (@initConsState Unit Nat)).1 rfl).2

/-- Claim C9: the relative path of a delivered entry is the absolute path
with the canonicalized root prefix stripped, the absolute path itself when
stripping fails, and a single component for an immediate child of the
root; every entry the pipeline delivers carries exactly this relative
path. -/
theorem rel_path_strip_root {σ E T : Type} (rootC abs : FsPath) (c : String)
    (root : FsPath) (canon : FsPath → Option FsPath) (opts : WalkOptions)
    (fsResults : List (Except Unit FsEntry)) (abortAt : Nat → Bool)
    (prunedAt : Nat → List FsPath) (fsMeta : FsPath → Option FsMeta)
    (cb : σ → WalkEntry → σ × CbResult T) (cs0 : σ) :
    (rootC.isPrefixOf abs = true → rootC ++ relOf rootC abs = abs) ∧
    (rootC.isPrefixOf abs = false → relOf rootC abs = abs) ∧
    relOf rootC (rootC ++ [c]) = [c] ∧
    ∀ pr ∈ (@walkPipeline σ E T (mkSetup root canon opts) fsResults abortAt prunedAt
      fsMeta cb cs0).2.trace,
      pr.1.rel_path = relOf (mkSetup root canon opts).rootAbs pr.1.abs_path := by
  refine ⟨?_, ?_, ?_, ?_⟩
  · intro h
    rcases List.isPrefixOf_iff_prefix.mp h with ⟨t, rfl⟩
    simp [relOf, stripRoot_append]
  · intro h
    simp [relOf, stripRoot_none h]
  · simp [relOf, stripRoot_append]
  · intro pr hpr
    rcases walkPipeline_trace_mem _ _ _ _ _ _ _ pr hpr with ⟨hentry, _, _⟩
    rw [hentry]
    rfl

/-- Witness for C9 at a concrete path: stripping the root of r/a leaves
the single component a. -/
theorem rel_path_strip_root_witness :
    (["r"] : FsPath) ++ relOf ["r"] ["r", "a"] = ["r", "a"] :=
  (@rel_path_strip_root Unit Unit Nat ["r"] ["r", "a"] "a" ["r"] (fun _ => none)
    WalkOptions.default [] (fun _ => false) (fun _ => []) (fun _ => none)
    (fun (u : Unit) (_ : WalkEntry) => (u, @CbResult.cont Nat)) ()).1 (by decide)

/-- Claim C2 counterexample: with `depth = 0` the immediate child r/a of
the root — enumerated, non-hidden, non-ignored — is not delivered to the
callback: nothing is. The underlying walker yields only the root at depth
zero (the source option doc reads `0 = list only root`) and the root entry
itself is always skipped, so the claim that depth 0 delivers the immediate
children fails. -/
theorem depth_zero_delivers_no_children :
    (@walkPipeline Unit Unit Nat
      (mkSetup ["r"] (fun _ => none) { WalkOptions.default with depth := 0 })
      [Except.ok ⟨["r"], false, false⟩, Except.ok ⟨["r", "a"], false, false⟩]
      (fun _ => false) (fun _ => []) (fun _ => some ⟨true⟩)
      (fun (u : Unit) (_ : WalkEntry) => (u, CbResult.emit 7)) ()).2.trace.map
        (fun pr => pr.1.abs_path) = [] ∧
    (Except.ok ⟨["r", "a"], false, false⟩ : Except Unit FsEntry) ∈
      ([Except.ok ⟨["r"], false, false⟩, Except.ok ⟨["r", "a"], false, false⟩] :
        List (Except Unit FsEntry)) ∧
    (["r", "a"] : FsPath) = ["r"] ++ ["a"] :=
  ⟨rfl, List.mem_cons_of_mem _ (List.mem_cons_self _ _), rfl⟩

/-- Claim C2 (amended): every entry delivered to the callback lies
strictly below the canonicalized root and at most `depth` levels below it
(when `depth` is not the unbounded sentinel); in particular with
`depth = 0` no entry at all is delivered. -/
theorem depth_bound_delivered {σ E T : Type} (root : FsPath)
    (canon : FsPath → Option FsPath) (opts : WalkOptions)
    (fsResults : List (Except Unit FsEntry)) (abortAt : Nat → Bool)
    (prunedAt : Nat → List FsPath) (fsMeta : FsPath → Option FsMeta)
    (cb : σ → WalkEntry → σ × CbResult T) (cs0 : σ) (hd : opts.depth ≠ usizeMax) :
    (∀ pr ∈ (@walkPipeline σ E T (mkSetup root canon opts) fsResults abortAt prunedAt
        fsMeta cb cs0).2.trace,
      (mkSetup root canon opts).rootAbs <+: pr.1.abs_path ∧
      (mkSetup root canon opts).rootAbs.length < pr.1.abs_path.length ∧
      pr.1.abs_path.length ≤ (mkSetup root canon opts).rootAbs.length + opts.depth) ∧
    (opts.depth = 0 →
      (@walkPipeline σ E T (mkSetup root canon opts) fsResults abortAt prunedAt
        fsMeta cb cs0).2.trace = []) := by
  have main : ∀ pr ∈ (@walkPipeline σ E T (mkSetup root canon opts) fsResults abortAt
      prunedAt fsMeta cb cs0).2.trace,
      (mkSetup root canon opts).rootAbs <+: pr.1.abs_path ∧
      (mkSetup root canon opts).rootAbs.length < pr.1.abs_path.length ∧
      pr.1.abs_path.length ≤ (mkSetup root canon opts).rootAbs.length + opts.depth := by
    intro pr hpr
    rcases walkPipeline_trace_mem _ _ _ _ _ _ _ pr hpr with ⟨_, hne, e, _, hkeep, hpath⟩
    rcases walkerKeeps_unpack hkeep with ⟨hpre, hdep, _, _⟩
    rw [hpath] at hpre hdep
    have hpre2 : (mkSetup root canon opts).rootAbs <+: pr.1.abs_path :=
      List.isPrefixOf_iff_prefix.mp hpre
    have hlen1 : (mkSetup root canon opts).rootAbs.length ≤ pr.1.abs_path.length :=
      hpre2.length_le
    have hlt : (mkSetup root canon opts).rootAbs.length < pr.1.abs_path.length :=
      lt_of_le_of_ne hlen1 (fun hEq => hne (hpre2.eq_of_length hEq).symm)
    have hdep2 := hdep opts.depth (by rw [mkSetup_flags_maxDepth, if_neg hd])
    exact ⟨hpre2, hlt, by omega⟩
  refine ⟨main, ?_⟩
  intro h0
  rw [List.eq_nil_iff_forall_not_mem]
  intro pr hpr
  rcases main pr hpr with ⟨_, hlt, hle⟩
  rw [h0] at hle
  omega

/-- Witness for C2 (amended) at a concrete walk: with depth = 0 the trace
is empty. -/
theorem depth_bound_delivered_witness :
    (@walkPipeline Unit Unit Nat
      (mkSetup ["r"] (fun _ => none) { WalkOptions.default with depth := 0 })
      [Except.ok ⟨["r"], false, false⟩, Except.ok ⟨["r", "a"], false, false⟩]
      (fun _ => false) (fun _ => []) (fun _ => some ⟨true⟩)
      (fun (u : Unit) (_ : WalkEntry) => (u, CbResult.emit 7)) ()).2.trace = [] :=
  (@depth_bound_delivered Unit Unit Nat ["r"] (fun _ => none)
    { WalkOptions.default with depth := 0 }
    [Except.ok ⟨["r"], false, false⟩, Except.ok ⟨["r", "a"], false, false⟩]
    (fun _ => false) (fun _ => []) (fun _ => some ⟨true⟩)
    (fun (u : Unit) (_ : WalkEntry) => (u, CbResult.emit 7)) () (by decide)).2 rfl

/-- Claim C8 (code bug witnessed): the builder ends every configuration
with `hidden = true`, because `standard_filters(true)` is applied after
`hidden(!opts.include_hidden)` and overwrites it; consequently a hidden
entry (r/.h) is not delivered even with `include_hidden = true`, although
it is enumerated — contradicting the option's own documentation. -/
theorem hidden_filter_ineffective :
    (∀ (opts : WalkOptions) (root : FsPath) (canon : FsPath → Option FsPath),
      (mkSetup root canon opts).flags.hidden = true) ∧
    (@walkPipeline Unit Unit Nat
      (mkSetup ["r"] (fun _ => none) { WalkOptions.default with include_hidden := true })
      [Except.ok ⟨["r"], false, false⟩, Except.ok ⟨["r", ".h"], true, false⟩,
       Except.ok ⟨["r", "a"], false, false⟩]
      (fun _ => false) (fun _ => []) (fun _ => some ⟨true⟩)
      (fun (u : Unit) (_ : WalkEntry) => (u, CbResult.emit 7)) ()).2.trace.map
        (fun pr => pr.1.abs_path) = [["r", "a"]] ∧
    (Except.ok ⟨["r", ".h"], true, false⟩ : Except Unit FsEntry) ∈
      ([Except.ok ⟨["r"], false, false⟩, Except.ok ⟨["r", ".h"], true, false⟩,
        Except.ok ⟨["r", "a"], false, false⟩] : List (Except Unit FsEntry)) :=
  ⟨fun opts root canon => mkSetup_flags_hidden root canon opts, rfl,
    List.mem_cons_of_mem _ (List.mem_cons_self _ _)⟩

/-- Claim C1 counterexample: a walk the callback terminates — `Abort` on
the first and only entry r/a, the code's sole callback-initiated
termination — yields no `Err` item at all: the output stream is empty (and
closed), and the drain returns `Ok(())` rather than the claimed error. -/
theorem abort_walk_surfaces_no_error :
    (@walkPipeline Unit Unit Nat (mkSetup ["r"] (fun _ => none) WalkOptions.default)
      [Except.ok ⟨["r", "a"], false, false⟩] (fun _ => false) (fun _ => [])
      (fun _ => some ⟨true⟩)
      (fun (u : Unit) (_ : WalkEntry) => (u, @CbResult.abort Nat)) ()).2.trace =
        [(mkEntryFor ["r"] ["r", "a"], WalkDecision.Abort)] ∧
    (@walkPipeline Unit Unit Nat (mkSetup ["r"] (fun _ => none) WalkOptions.default)
      [Except.ok ⟨["r", "a"], false, false⟩] (fun _ => false) (fun _ => [])
      (fun _ => some ⟨true⟩)
      (fun (u : Unit) (_ : WalkEntry) => (u, @CbResult.abort Nat)) ()).2.outItems = [] ∧
    @walk_dir Unit ["r"] (fun _ => none) WalkOptions.default
      [Except.ok ⟨["r", "a"], false, false⟩] (fun _ => false) (fun _ => [])
      (fun _ => some ⟨true⟩) (fun _ => @CbResult.abort Unit) = Except.ok () :=
  ⟨rfl, rfl, rfl⟩

/-- Claim C1 (amended): the callback has no error channel in the walker's
types; even in a walk the callback terminates via `Abort`, every item on
the output stream is `Ok` — no `Err` item ever appears — and the drain
returns `Ok(())`. -/
theorem callback_termination_surfaces_no_error {σ E T : Type} (root : FsPath)
    (canon : FsPath → Option FsPath) (opts : WalkOptions)
    (fsResults : List (Except Unit FsEntry)) (abortAt : Nat → Bool)
    (prunedAt : Nat → List FsPath) (fsMeta : FsPath → Option FsMeta)
    (cb : σ → WalkEntry → σ × CbResult T) (cs0 : σ)
    (h : ∃ pr ∈ (@walkPipeline σ E T (mkSetup root canon opts) fsResults abortAt prunedAt
      fsMeta cb cs0).2.trace, pr.2 = WalkDecision.Abort) :
    (@walkPipeline σ E T (mkSetup root canon opts) fsResults abortAt prunedAt
      fsMeta cb cs0).2.outItems.all isOkItem = true ∧
    drainResults (@walkPipeline σ E T (mkSetup root canon opts) fsResults abortAt prunedAt
      fsMeta cb cs0).2.outItems = Except.ok () := by
  refine ⟨?_, drainResults_ok _ (walkPipeline_outItems_ok _ _ _ _ _ _ _)⟩
  rw [List.all_eq_true]
  intro x hx
  rcases walkPipeline_outItems_ok _ _ _ _ _ _ _ x hx with ⟨t0, rfl⟩
  rfl

/-- Witness for C1 (amended) at a concrete aborted walk: the drain of the
aborted walk succeeds with no error. -/
theorem callback_termination_surfaces_no_error_witness :
    drainResults (@walkPipeline Unit Unit Nat
      (mkSetup ["r"] (fun _ => none) WalkOptions.default)
      [Except.ok ⟨["r", "a"], false, false⟩] (fun _ => false) (fun _ => [])
      (fun _ => some ⟨true⟩)
      (fun (u : Unit) (_ : WalkEntry) => (u, @CbResult.abort Nat)) ()).2.outItems =
      Except.ok () :=
  (@callback_termination_surfaces_no_error Unit Unit Nat ["r"] (fun _ => none)
    WalkOptions.default [Except.ok ⟨["r", "a"], false, false⟩] (fun _ => false)
    (fun _ => []) (fun _ => some ⟨true⟩)
    (fun (u : Unit) (_ : WalkEntry) => (u, @CbResult.abort Nat)) ()
    ⟨(mkEntryFor ["r"] ["r", "a"], WalkDecision.Abort),
      List.mem_cons_self _ _, rfl⟩).2
